import Mathlib

/-!
Shallow embedding of the transcript scraper (src/main.rs).

Strings are modelled as lists of characters (Rust str slices); Rust panics
(index out of bounds, usize underflow, failed assert, unwrap on None) are
modelled as the explicit error value PErr.panic in an Except monad, while
the io::Error values returned through Result are modelled as
PErr.invalidData with the source's message. Definitions are translated
from the source; the one exception, merge_spec_sweep, is clearly marked as
modelling the specification's words for the refinement claim about the
page-break merge pass.
-/

abbrev Str := List Char

/-- Conversion from a Lean string literal to the character-list model. -/
def S (s : String) : Str := s.data

/-- Whitespace test used both by the model of Rust str::trim and of
str::split_ascii_whitespace; the transcripts only contain ASCII
whitespace, so the model restricts to it. -/
def is_ws (c : Char) : Bool := c = ' ' || c = '\t' || c = '\n' || c = '\r' || c = '\x0c'

/-- Model of Rust str::trim: drop whitespace from both ends. -/
def trim (s : Str) : Str := ((s.dropWhile is_ws).reverse.dropWhile is_ws).reverse

/-- Model of Rust str::starts_with for string patterns. -/
def starts_with (pre s : Str) : Bool := pre.isPrefixOf s

/-- Model of Rust str::ends_with for string patterns. -/
def ends_with (suf s : Str) : Bool := suf.reverse.isPrefixOf s.reverse

/-- The recursive tree of extracted text: enum Chunk in the source. -/
inductive Chunk where
  | str : Str → Chunk
  | chunks : List Chunk → Chunk

mutual

def chunkDecEq : (a b : Chunk) → Decidable (a = b)
  | .str s, .str t =>
    match decEq s t with
    | isTrue h => isTrue (by rw [h])
    | isFalse h => isFalse (by intro hc; cases hc; exact h rfl)
  | .chunks v, .chunks w =>
    match chunkListDecEq v w with
    | isTrue h => isTrue (by rw [h])
    | isFalse h => isFalse (by intro hc; cases hc; exact h rfl)
  | .str _, .chunks _ => isFalse (by intro h; cases h)
  | .chunks _, .str _ => isFalse (by intro h; cases h)

def chunkListDecEq : (v w : List Chunk) → Decidable (v = w)
  | [], [] => isTrue rfl
  | a :: as, b :: bs =>
    match chunkDecEq a b, chunkListDecEq as bs with
    | isTrue h1, isTrue h2 => isTrue (by rw [h1, h2])
    | isFalse h1, _ => isFalse (by intro hc; cases hc; exact h1 rfl)
    | _, isFalse h2 => isFalse (by intro hc; cases hc; exact h2 rfl)
  | [], _ :: _ => isFalse (by intro h; cases h)
  | _ :: _, [] => isFalse (by intro h; cases h)

end

instance : DecidableEq Chunk := chunkDecEq

/-- Chunk::get_contained from the source. -/
def Chunk.get_contained : Chunk → Option (List Chunk)
  | .str _ => none
  | .chunks v => some v

/-- Chunk::get_string from the source. -/
def Chunk.get_string : Chunk → Option Str
  | .str s => some s
  | .chunks _ => none

/-- Chunk::is_chunks from the source. -/
def Chunk.is_chunks : Chunk → Bool
  | .str _ => false
  | .chunks _ => true

mutual

/-- Chunk::simplify from the source: trim leaves, recursively simplify
children, and collapse a group with exactly one element into that element. -/
def Chunk.simplify : Chunk → Chunk
  | .str s => .str (trim s)
  | .chunks v =>
    match simplifyList v with
    | [f] => f
    | fresh => .chunks fresh

/-- Elementwise simplification of a chunk list (the map inside
Chunk::simplify). -/
def simplifyList : List Chunk → List Chunk
  | [] => []
  | c :: cs => c.simplify :: simplifyList cs

end

mutual

/-- Leaf texts of a chunk in left-to-right order. -/
def leaves : Chunk → List Str
  | .str s => [s]
  | .chunks v => leavesList v

def leavesList : List Chunk → List Str
  | [] => []
  | c :: cs => leaves c ++ leavesList cs

end

mutual

/-- True when no subtree (the root included) is a group with exactly one child. -/
def no_singleton : Chunk → Bool
  | .str _ => true
  | .chunks v => (decide (v.length ≠ 1)) && no_singletonList v

def no_singletonList : List Chunk → Bool
  | [] => true
  | c :: cs => no_singleton c && no_singletonList cs

end

/-- Error model: panic covers Rust panics (index out of bounds, usize
underflow, failed assert, unwrap of None); invalidData covers the
io::Error values of kind InvalidData returned through Result. -/
inductive PErr where
  | panic : PErr
  | invalidData : String → PErr
deriving DecidableEq

def exceptDecEq [DecidableEq ε] [DecidableEq α] : (a b : Except ε α) → Decidable (a = b)
  | .ok x, .ok y =>
    match decEq x y with
    | isTrue h => isTrue (by rw [h])
    | isFalse h => isFalse (by intro hc; cases hc; exact h rfl)
  | .error x, .error y =>
    match decEq x y with
    | isTrue h => isTrue (by rw [h])
    | isFalse h => isFalse (by intro hc; cases hc; exact h rfl)
  | .ok _, .error _ => isFalse (by intro h; cases h)
  | .error _, .ok _ => isFalse (by intro h; cases h)

instance [DecidableEq ε] [DecidableEq α] : DecidableEq (Except ε α) := exceptDecEq

/-- Sequential mapM in the Except monad, with explicit equations. -/
def mapME (f : α → Except PErr β) : List α → Except PErr (List β)
  | [] => .ok []
  | a :: as =>
    match f a with
    | .error e => .error e
    | .ok b =>
      match mapME f as with
      | .error e => .error e
      | .ok bs => .ok (b :: bs)

def FOOTER_BANNER : Str := S "S I M O N   F R A S E R   U N I V E R S I T Y"

/-- The element 7 positions before the end of a page, where the footer
banner group must sit on every page except the last. -/
def footer_slot (page : List Chunk) : Option Chunk := page.get? (page.length - 7)

/-- The per-page body of the loop in combine_page_chunks: check the footer
group 7 positions before the end and truncate there. A page shorter than 7
elements makes the index computation underflow (panic), and an empty group
at the slot makes the v[0] access in the match guard panic. -/
def strip_footer (page : List Chunk) : Except PErr (List Chunk) :=
  if page.length < 7 then .error .panic
  else
    match footer_slot page with
    | some (Chunk.chunks []) => .error .panic
    | some (Chunk.chunks (h :: _)) =>
      if h = Chunk.str FOOTER_BANNER then .ok (page.take (page.length - 7))
      else .error (.invalidData "Footer banner not found at expected position")
    | some (Chunk.str _) => .error (.invalidData "Footer banner not found at expected position")
    | none => .error .panic

/-- combine_page_chunks from the source: strip the footer from every page
but the last and concatenate. Zero pages make the slice bound num_pages-1
underflow (panic). -/
def combine_page_chunks (pages : List (List Chunk)) : Except PErr (List Chunk) :=
  match pages with
  | [] => .error .panic
  | _ :: _ =>
    match mapME strip_footer pages.dropLast with
    | .error e => .error e
    | .ok stripped => .ok (stripped.flatten ++ (pages.getLast?.getD []))

/-- A non-last page that passes the footer check of combine_page_chunks. -/
def good_page (p : List Chunk) : Bool :=
  decide (7 ≤ p.length) &&
    (match footer_slot p with
     | some (Chunk.chunks (h :: _)) => decide (h = Chunk.str FOOTER_BANNER)
     | _ => false)

/-- A non-last page on which the footer check can run without a panic:
at least 7 elements, and the element 7 before the end is not an empty group. -/
def safe_page (p : List Chunk) : Bool :=
  decide (7 ≤ p.length) &&
    (match footer_slot p with
     | some (Chunk.chunks []) => false
     | some _ => true
     | none => false)

/-- A non-last page on which the footer check panics: fewer than 7
elements, or an empty group at the footer slot. -/
def abortive_page (p : List Chunk) : Bool :=
  decide (p.length < 7) ||
    (match footer_slot p with
     | some (Chunk.chunks []) => true
     | _ => false)

structure Plan where
  name : Str
deriving DecidableEq

structure Course where
  subject : Str
  id : Str
  grade : Str
deriving DecidableEq

structure Transfer where
  course : Course
  school : Option Str
deriving DecidableEq

structure Semester where
  year : Str
  term : Str
  is_good_standing : Bool
  courses : List Course
deriving DecidableEq

structure StudentInfo where
  id : Str
  plan : Plan
  transfers : List Transfer
  semesters : List Semester
deriving DecidableEq

/-- process_plan from the source: the plan name is the second to last
element of the plan chunk; a group with fewer than 2 children panics on
the v[v.len()-2] index. -/
def process_plan (plan_chunk : Chunk) : Except PErr Plan :=
  match plan_chunk with
  | .chunks v =>
    if v.length < 2 then .error .panic
    else
      match (v.get? (v.length - 2)).bind Chunk.get_string with
      | some s => .ok { name := s }
      | none => .error (.invalidData "Bad plan chunk found")
  | .str _ => .error (.invalidData "Bad plan chunk found")

def QUALIFIERS : List Str := [S "W", S "Q", S "Online"]

def BREADTH_TAGS : List Str := [S "B-Sci", S "B-Hum", S "B-Soc"]

/-- Substring containment on the character-list model (Rust str::contains). -/
def contains_sub (needle : Str) (hay : Str) : Bool :=
  match hay with
  | [] => needle.isEmpty
  | _ :: rest => needle.isPrefixOf hay || contains_sub needle rest

def matches_breadth (s : Str) : Bool := BREADTH_TAGS.any (fun b => contains_sub b s)

def is_qualifier (s : Str) : Bool := QUALIFIERS.contains s

/-- is_perm_dt from the source: the literal "Perm.Dt:" or a string that
str::split("-") cuts into exactly 3 pieces, i.e. exactly 2 hyphens. -/
def is_perm_dt (s : Str) : Bool :=
  decide (s = S "Perm.Dt:") || decide (s.count '-' + 1 = 3)

def POSSIBLE_GRADES : List Str :=
  [S "A+", S "A", S "A-",
   S "B+", S "B", S "B-",
   S "C+", S "C", S "C-",
   S "D",
   S "P",
   S "DE", S "GN", S "IP",
   S "F", S "FD", S "N",
   S "AE", S "AU", S "CC", S "CF", S "CN", S "CR", S "FX", S "NC", S "WD", S "WE", S "TR"]

def PAGE_BREAK_TAG : Str := S "SFUSR"

/-- Reduction of a transfer row group to its leaf strings with qualifier
and breadth-tag columns filtered out. -/
def reduce_transfer_row (row : List Chunk) : List Str :=
  (row.filterMap Chunk.get_string).filter (fun s => !is_qualifier s && !matches_breadth s)

/-- The sources list of process_transfers before the spacer insertion:
keep only group chunks and reduce each to filtered leaf strings. -/
def transfer_sources (chunks : List Chunk) : List (List Str) :=
  (chunks.filterMap Chunk.get_contained).map reduce_transfer_row

/-- The page-break merge loop of process_transfers, modelled index for
index: while i < len-1, if row i ends with an element starting with the
page-break tag, drop that element, splice the following row in, and remove
it; i advances by one each iteration. An empty checked row panics on the
len-1 index computation; an empty sources list panics on len()-1. -/
def merge_loop (sources : List (List Str)) (i : Nat) : Except PErr (List (List Str)) :=
  if sources.isEmpty then .error .panic
  else if h : i < sources.length - 1 then
    match sources.get? i with
    | none => .error .panic
    | some row =>
      match row.getLast? with
      | none => .error .panic
      | some lastEl =>
        if starts_with PAGE_BREAK_TAG lastEl then
          match sources.get? (i + 1) with
          | none => .error .panic
          | some nextRow =>
            merge_loop (sources.take i ++ (row.dropLast ++ nextRow) :: sources.drop (i + 2)) (i + 1)
        else merge_loop sources (i + 1)
  else .ok sources
termination_by sources.length - i
decreasing_by
  · simp only [List.length_append, List.length_take, List.length_cons, List.length_drop]
    omega
  · omega

/-- Modelled from the spec: the page-break merge pass as one forward sweep
over the row sequence. A row whose last element starts with the page-break
tag is merged with the immediately following row (the trailing tag element
dropped, the following row's elements appended, the following row removed)
and the sweep continues after the merged pair without reprocessing the
merged content; the final row, having no following row, is never checked. -/
def merge_spec_sweep : List (List Str) → Except PErr (List (List Str))
  | [] => .ok []
  | [r] => .ok [r]
  | r :: r2 :: rest =>
    match r.getLast? with
    | none => .error .panic
    | some lastEl =>
      if starts_with PAGE_BREAK_TAG lastEl then
        match merge_spec_sweep rest with
        | .error e => .error e
        | .ok out => .ok ((r.dropLast ++ r2) :: out)
      else
        match merge_spec_sweep (r2 :: rest) with
        | .error e => .error e
        | .ok out => .ok (r :: out)

/-- Number of merges the forward sweep performs. -/
def merge_count : List (List Str) → Nat
  | [] => 0
  | [_] => 0
  | r :: r2 :: rest =>
    match r.getLast? with
    | none => 0
    | some lastEl =>
      if starts_with PAGE_BREAK_TAG lastEl then 1 + merge_count rest
      else merge_count (r2 :: rest)

/-- The grade-position element of a transfer row is present but outside
the grade vocabulary (the element checked by the assert in
process_transfers). -/
def bad_grade_row (row : List Str) : Bool :=
  let off := if row.length = 10 then 1 else 0
  match row.get? (off + 6) with
  | some g => !POSSIBLE_GRADES.contains g
  | none => false

/-- The final loop of process_transfers: for each row except the last,
read the optional school from the following row, pick the column offset,
assert the grade is in the vocabulary (panic otherwise), and build a
Transfer from fixed offsets. -/
def build_transfers : List (List Str) → Except PErr (List Transfer)
  | [] => .error .panic
  | [_] => .ok []
  | row :: next :: rest =>
    match (if next.length = 10 ∨ next.length = 2 then
             match next.get? 1 with
             | some s => Except.ok (some s)
             | none => Except.error PErr.panic
           else Except.ok none : Except PErr (Option Str)) with
    | .error e => .error e
    | .ok school =>
      let off := if row.length = 10 then 1 else 0
      match row.get? (off + 6) with
      | none => .error .panic
      | some g =>
        if POSSIBLE_GRADES.contains g then
          match row.get? (off + 1), row.get? (off + 2) with
          | some subject, some id =>
            match build_transfers (next :: rest) with
            | .error e => .error e
            | .ok ts =>
              .ok ({ course := { subject := subject, id := id, grade := g },
                     school := school } :: ts)
          | _, _ => .error .panic
        else .error .panic

/-- process_transfers from the source: reduce rows, insert the spacer into
the first row (panicking if there is none), merge page-break rows, then
build the transfers. -/
def process_transfers (chunks : List Chunk) : Except PErr (List Transfer) :=
  match transfer_sources chunks with
  | [] => .error .panic
  | r :: rest =>
    match merge_loop ((([] : Str) :: r) :: rest) 0 with
    | .error e => .error e
    | .ok merged => build_transfers merged

def TERMS : List Str := [S "Spring", S "Summer", S "Fall"]

def split_ws_aux : Str → Str → List Str
  | [], cur => if cur.isEmpty then [] else [cur.reverse]
  | c :: rest, cur =>
    if is_ws c then
      if cur.isEmpty then split_ws_aux rest []
      else cur.reverse :: split_ws_aux rest []
    else split_ws_aux rest (c :: cur)

/-- Model of str::split_ascii_whitespace: maximal nonempty runs of
non-whitespace characters. -/
def split_ws (s : Str) : List Str := split_ws_aux s []

/-- get_year_term from the source: the first two whitespace-separated
pieces, provided the second is a term name; any further pieces are ignored. -/
def get_year_term (s : Str) : Option (Str × Str) :=
  match split_ws s with
  | year :: term :: _ => if TERMS.contains term then some (year, term) else none
  | _ => none

/-- A chunk that starts a new run in the chunk_by grouping of
process_semesters: a leaf whose text parses as year and term. -/
def is_year_term_leaf (c : Chunk) : Bool :=
  match c with
  | .str s => (get_year_term s).isSome
  | .chunks _ => false

/-- Model of slice::chunk_by with the predicate of process_semesters:
consecutive runs split immediately before every year-term leaf. -/
def split_runs : List Chunk → List (List Chunk)
  | [] => []
  | c :: rest =>
    match split_runs rest with
    | [] => [[c]]
    | [] :: rs => [c] :: [] :: rs
    | (d :: ds) :: rs =>
      if is_year_term_leaf d then [c] :: (d :: ds) :: rs
      else (c :: d :: ds) :: rs

/-- Reduction of a semester candidate row to its leaf strings with
qualifier, breadth-tag and permanent-date columns filtered out. -/
def reduce_sem_row (row : List Chunk) : List Str :=
  (row.filterMap Chunk.get_string).filter
    (fun s => !is_qualifier s && !matches_breadth s && !is_perm_dt s)

/-- The row filter of process_semesters. The first element is read before
the length is checked, so an empty reduced row panics on the v[0] index. -/
def row_keep (v : List Str) : Except PErr Bool :=
  match v with
  | [] => .error .panic
  | s0 :: _ =>
    .ok (!ends_with (S "GPA:") s0 && decide (6 < v.length) && !(v.getD 6 []).isEmpty)

/-- Sequential filter in the Except monad, mirroring Iterator::filter
followed by collect. -/
def filterME (f : List Str → Except PErr Bool) : List (List Str) → Except PErr (List (List Str))
  | [] => .ok []
  | v :: rest =>
    match f v with
    | .error e => .error e
    | .ok keep =>
      match filterME f rest with
      | .error e => .error e
      | .ok tail => .ok (if keep then v :: tail else tail)

/-- The per-run body of the first stage of process_semesters: unwrap the
year-term header from the run's first element, reduce the remaining group
chunks to rows and filter them. -/
def run_to_group (s : List Chunk) : Except PErr ((Str × Str) × List (List Str)) :=
  match s with
  | [] => .error .panic
  | c :: rest =>
    match c.get_string with
    | none => .error .panic
    | some s0 =>
      match get_year_term s0 with
      | none => .error .panic
      | some yt =>
        match filterME row_keep ((rest.filterMap Chunk.get_contained).map reduce_sem_row) with
        | .error e => .error e
        | .ok rows => .ok (yt, rows)

/-- The first stage of process_semesters: group into runs, drop the run
before the first term header, keep runs of at least 2 elements, and turn
each into a year-term header with its filtered candidate rows. -/
def semester_grouped (chunks : List Chunk) : Except PErr (List ((Str × Str) × List (List Str))) :=
  mapME run_to_group (((split_runs chunks).drop 1).filter (fun s => decide (2 ≤ s.length)))

/-- The course builder of process_semesters: assert the grade at index 6
is in the vocabulary (panic otherwise) and read subject, id and grade from
indices 1, 2 and 6. -/
def row_to_course (r : List Str) : Except PErr Course :=
  match r.get? 6 with
  | none => .error .panic
  | some g =>
    if POSSIBLE_GRADES.contains g then
      match r.get? 1, r.get? 2 with
      | some subject, some id => .ok { subject := subject, id := id, grade := g }
      | _, _ => .error .panic
    else .error .panic

/-- A semester row whose grade-position element (index 6) is present but
outside the grade vocabulary. -/
def bad_sem_row (row : List Str) : Bool :=
  match row.get? 6 with
  | some g => !POSSIBLE_GRADES.contains g
  | none => false

/-- One Semester from one kept group: validate and build every course row
(the inspect/assert and map of the source), keeping the year and term. -/
def sem_build (p : (Str × Str) × List (List Str)) : Except PErr Semester :=
  match mapME row_to_course p.2 with
  | .error e => .error e
  | .ok courses =>
    .ok { year := p.1.1, term := p.1.2, is_good_standing := true, courses := courses }

/-- The second stage of process_semesters: drop groups with no surviving
rows, then build one Semester per remaining group. -/
def build_semesters (grouped : List ((Str × Str) × List (List Str))) : Except PErr (List Semester) :=
  mapME sem_build (grouped.filter (fun p => !p.2.isEmpty))

/-- process_semesters from the source, as the two collect stages. -/
def process_semesters (chunks : List Chunk) : Except PErr (List Semester) :=
  match semester_grouped chunks with
  | .error e => .error e
  | .ok grouped => build_semesters grouped

def PLAN_MARKER : Str := S "Plan"

def TRANSFER_MARKER : Str := S "TRANSFER COURSES"

def PROGRAM_MARKER : Str := S "Program:"

def END_MARKER : Str := S "TOTAL UNITS PASSED BY ACADEMIC GROUP"

/-- find_index from the source: position of the first chunk equal to the
marker leaf, searching from start, as an offset from the whole sequence. -/
def find_index (chunks : List Chunk) (start : Nat) (marker : Str) (err : String) :
    Except PErr Nat :=
  match (chunks.drop start).findIdx? (fun c => decide (c = Chunk.str marker)) with
  | some i => .ok (start + i)
  | none => .error (.invalidData err)

/-- process_chunks from the source, with the evaluation order of the Rust
struct literal made explicit: markers are located first (the transfer
lookup result is held unexamined), then the id, plan, transfers and
semesters fields are computed in that order, each early exit propagating
its error. The id index len-3 underflows (panic) for fewer than 3 chunks. -/
def process_chunks (chunks : List Chunk) : Except PErr StudentInfo :=
  match find_index chunks 0 PLAN_MARKER "Plan marker not found" with
  | .error e => .error e
  | .ok pi0 =>
    let plan_index := pi0 + 1
    let transfer_index := find_index chunks plan_index TRANSFER_MARKER "Transfer marker not found"
    match find_index chunks plan_index PROGRAM_MARKER "Program marker not found" with
    | .error e => .error e
    | .ok program_index =>
      match find_index chunks program_index END_MARKER "End marker not found" with
      | .error e => .error e
      | .ok end_index =>
        if chunks.length < 3 then .error .panic
        else
          match (chunks.get? (chunks.length - 3)) with
          | none => .error .panic
          | some idc =>
            match idc.get_string with
            | none => .error (.invalidData "Bad student id")
            | some sid =>
              match chunks.get? plan_index with
              | none => .error .panic
              | some planc =>
                match process_plan planc with
                | .error e => .error e
                | .ok plan =>
                  match transfer_index with
                  | .error e => .error e
                  | .ok ti =>
                    if program_index < ti then .error .panic
                    else
                      match process_transfers ((chunks.drop ti).take (program_index - ti)) with
                      | .error e => .error e
                      | .ok transfers =>
                        match process_semesters
                            ((chunks.drop program_index).take (end_index - program_index)) with
                        | .error e => .error e
                        | .ok semesters =>
                          .ok { id := sid, plan := plan,
                                transfers := transfers, semesters := semesters }

/-! ## Theorems -/

theorem dropWhile_fix (p : α → Bool) (l : List α) :
    (l.dropWhile p).dropWhile p = l.dropWhile p := by
  induction l with
  | nil => rfl
  | cons b bs ih =>
    by_cases hb : p b = true
    · simp [List.dropWhile_cons, hb, ih]
    · simp [List.dropWhile_cons, hb]

theorem dropWhile_sub (p : α → Bool) (l : List α) :
    ∃ pre, l = pre ++ l.dropWhile p := by
  induction l with
  | nil => exact ⟨[], rfl⟩
  | cons b bs ih =>
    by_cases hb : p b = true
    · obtain ⟨pre, hpre⟩ := ih
      exact ⟨b :: pre, by simp [List.dropWhile_cons, hb, ← hpre]⟩
    · exact ⟨[], by simp [List.dropWhile_cons, hb]⟩

theorem dropWhile_length_le (p : α → Bool) (l : List α) :
    (l.dropWhile p).length ≤ l.length := by
  induction l with
  | nil => simp
  | cons b bs ih =>
    by_cases hb : p b = true
    · simp only [List.dropWhile_cons, hb, if_true]
      exact Nat.le_succ_of_le ih
    · simp [List.dropWhile_cons, hb]

theorem rev_dropWhile_fix (p : α → Bool) (A : List α) (hA : A.dropWhile p = A) :
    ((A.reverse.dropWhile p).reverse).dropWhile p = (A.reverse.dropWhile p).reverse := by
  obtain ⟨pre, hpre⟩ := dropWhile_sub p A.reverse
  have hA2 : A = (A.reverse.dropWhile p).reverse ++ pre.reverse := by
    conv_lhs => rw [← List.reverse_reverse A, hpre]
    simp
  cases hD : (A.reverse.dropWhile p).reverse with
  | nil => rfl
  | cons b t =>
    have hpb : p b = false := by
      by_contra hpb
      have hpb' : p b = true := by
        cases hx : p b
        · exact absurd hx hpb
        · rfl
      have hlen : A.length ≤ (t ++ pre.reverse).length := by
        conv_lhs => rw [← hA, hA2, hD]
        calc ((b :: t ++ pre.reverse).dropWhile p).length
            = ((t ++ pre.reverse).dropWhile p).length := by
              simp [List.dropWhile_cons, hpb']
          _ ≤ (t ++ pre.reverse).length := dropWhile_length_le _ _
      rw [hA2, hD] at hlen
      simp at hlen
    simp [List.dropWhile_cons, hpb]

theorem trim_idem (s : Str) : trim (trim s) = trim s := by
  unfold trim
  have h1 : (s.dropWhile is_ws).dropWhile is_ws = s.dropWhile is_ws :=
    dropWhile_fix is_ws s
  have h2 := rev_dropWhile_fix is_ws (s.dropWhile is_ws) h1
  rw [h2]
  rw [List.reverse_reverse]
  rw [dropWhile_fix]

theorem simplifyList_length (v : List Chunk) :
    (simplifyList v).length = v.length := by
  induction v with
  | nil => rfl
  | cons c cs ih => simp [simplifyList, ih]

theorem simplifyList_of_fix (w : List Chunk) (h : ∀ f ∈ w, Chunk.simplify f = f) :
    simplifyList w = w := by
  induction w with
  | nil => rfl
  | cons c cs ih =>
    simp only [simplifyList]
    rw [h c (List.mem_cons_self c cs), ih (fun f hf => h f (List.mem_cons_of_mem c hf))]

mutual

theorem simplify_fix : ∀ c : Chunk, (Chunk.simplify c).simplify = Chunk.simplify c
  | .str s => by
    simp [Chunk.simplify, trim_idem]
  | .chunks v => by
    simp only [Chunk.simplify]
    cases h : simplifyList v with
    | nil => simp [Chunk.simplify, simplifyList]
    | cons f fs =>
      cases fs with
      | nil =>
        exact simplifyList_mem_fix v f (h ▸ List.mem_cons_self f [])
      | cons g gs =>
        have hfix : simplifyList (f :: g :: gs) = f :: g :: gs :=
          simplifyList_of_fix _ (fun x hx => simplifyList_mem_fix v x (h ▸ hx))
        simp only [Chunk.simplify, hfix]

theorem simplifyList_mem_fix : ∀ (v : List Chunk) (f : Chunk),
    f ∈ simplifyList v → Chunk.simplify f = f
  | [], f, hf => by simp [simplifyList] at hf
  | c :: cs, f, hf => by
    simp only [simplifyList, List.mem_cons] at hf
    cases hf with
    | inl h => exact h ▸ simplify_fix c
    | inr h => exact simplifyList_mem_fix cs f h

end

mutual

theorem leaves_simplify : ∀ c : Chunk, leaves c.simplify = (leaves c).map trim
  | .str s => by simp [Chunk.simplify, leaves]
  | .chunks v => by
    have hl := leavesList_simplifyList v
    simp only [Chunk.simplify, leaves]
    cases h : simplifyList v with
    | nil => rw [h] at hl; simpa [leaves, leavesList] using hl
    | cons f fs =>
      cases fs with
      | nil => rw [h] at hl; simpa [leaves, leavesList] using hl
      | cons g gs => rw [h] at hl; simpa [leaves, leavesList] using hl

theorem leavesList_simplifyList : ∀ v : List Chunk,
    leavesList (simplifyList v) = (leavesList v).map trim
  | [] => by simp [simplifyList, leavesList]
  | c :: cs => by
    simp only [simplifyList, leavesList, List.map_append]
    rw [leaves_simplify c, leavesList_simplifyList cs]

end

theorem no_singletonList_of (w : List Chunk) (h : ∀ x ∈ w, no_singleton x = true) :
    no_singletonList w = true := by
  induction w with
  | nil => rfl
  | cons c cs ih =>
    simp only [no_singletonList, Bool.and_eq_true]
    exact ⟨h c (List.mem_cons_self c cs), ih (fun x hx => h x (List.mem_cons_of_mem c hx))⟩

mutual

theorem no_singleton_simplify : ∀ c : Chunk, no_singleton c.simplify = true
  | .str s => by simp [Chunk.simplify, no_singleton]
  | .chunks v => by
    simp only [Chunk.simplify]
    cases h : simplifyList v with
    | nil => simp [no_singleton, no_singletonList]
    | cons f fs =>
      cases fs with
      | nil =>
        exact no_singletonList_mem v f (h ▸ List.mem_cons_self f [])
      | cons g gs =>
        simp only [no_singleton, Bool.and_eq_true]
        refine ⟨by simp, ?_⟩
        exact no_singletonList_of _ (fun x hx => no_singletonList_mem v x (h ▸ hx))

theorem no_singletonList_mem : ∀ (v : List Chunk) (f : Chunk),
    f ∈ simplifyList v → no_singleton f = true
  | [], f, hf => by simp [simplifyList] at hf
  | c :: cs, f, hf => by
    simp only [simplifyList, List.mem_cons] at hf
    cases hf with
    | inl h => exact h ▸ no_singleton_simplify c
    | inr h => exact no_singletonList_mem cs f h

end

/-- C1: applying Chunk::simplify a second time to an already simplified
chunk tree returns it unchanged, for every chunk. -/
theorem c1_simplify_idempotent : ∀ c : Chunk,
    (Chunk.simplify c).simplify = Chunk.simplify c :=
  simplify_fix

/-- C2 counterexample: the sequence of leaf texts of simplify(c) does not
equal the sequence of leaf texts of c, because leaf text is trimmed; the
single leaf " a" becomes "a". -/
theorem c2_counterexample :
    leaves (Chunk.simplify (Chunk.str (S " a"))) ≠ leaves (Chunk.str (S " a")) := by
  decide

/-- C2 (amended): the sequence of leaf texts of simplify(c), in
left-to-right order, equals the sequence of leaf texts of c with each text
trimmed of surrounding whitespace; in particular no leaf is dropped, added
or reordered. -/
theorem c2_leaves_trimmed : ∀ c : Chunk,
    leaves (Chunk.simplify c) = (leaves c).map trim :=
  leaves_simplify

/-- C3 counterexample: a top-level singleton group is not retained as a
group; simplify collapses it into its single element, so the result is not
a group. -/
theorem c3_counterexample :
    (Chunk.simplify (Chunk.chunks [Chunk.str (S "a")])).is_chunks = false := by
  decide

/-- C3 (amended): no subtree of simplify(c), the root included, is a group
with exactly one child. The exemption for the top-level page and block
grouping concerns the per-page lists of chunks, which are outside the
Chunk type and never passed through simplify, not any Chunk value. -/
theorem c3_no_singleton_group : ∀ c : Chunk,
    no_singleton (Chunk.simplify c) = true :=
  no_singleton_simplify

theorem strip_footer_good (p : List Chunk) (h : good_page p = true) :
    strip_footer p = .ok (p.take (p.length - 7)) := by
  unfold good_page at h
  rw [Bool.and_eq_true, decide_eq_true_eq] at h
  obtain ⟨h7, hslot⟩ := h
  unfold strip_footer
  rw [if_neg (Nat.not_lt.mpr h7)]
  cases hs : footer_slot p with
  | none => rw [hs] at hslot; simp at hslot
  | some c =>
    rw [hs] at hslot
    cases c with
    | str s => simp at hslot
    | chunks v =>
      cases v with
      | nil => simp at hslot
      | cons hd tl =>
        have hhd : hd = Chunk.str FOOTER_BANNER := by simpa using hslot
        simp [hhd]

theorem strip_footer_bad (p : List Chunk) (hsafe : safe_page p = true)
    (hgood : good_page p = false) :
    strip_footer p = .error (.invalidData "Footer banner not found at expected position") := by
  unfold safe_page at hsafe
  unfold good_page at hgood
  rw [Bool.and_eq_true, decide_eq_true_eq] at hsafe
  obtain ⟨h7, hslot⟩ := hsafe
  rw [Bool.and_eq_false_iff] at hgood
  have hgood' : (match footer_slot p with
      | some (Chunk.chunks (h :: _)) => decide (h = Chunk.str FOOTER_BANNER)
      | _ => false) = false := by
    cases hgood with
    | inl h => rw [decide_eq_false_iff_not] at h; exact absurd h7 h
    | inr h => exact h
  unfold strip_footer
  rw [if_neg (Nat.not_lt.mpr h7)]
  cases hs : footer_slot p with
  | none => rw [hs] at hslot; simp at hslot
  | some c =>
    rw [hs] at hslot hgood'
    cases c with
    | str s => rfl
    | chunks v =>
      cases v with
      | nil => simp at hslot
      | cons hd tl =>
        have hhd : ¬(hd = Chunk.str FOOTER_BANNER) := by simpa using hgood'
        simp [hhd]

theorem strip_footer_abort (p : List Chunk) (h : abortive_page p = true) :
    strip_footer p = .error .panic := by
  unfold abortive_page at h
  by_cases h7 : p.length < 7
  · unfold strip_footer
    rw [if_pos h7]
  · have hslot : (match footer_slot p with
        | some (Chunk.chunks []) => true
        | _ => false) = true := by
      rcases Bool.or_eq_true_iff.mp h with h' | h'
      · rw [decide_eq_true_eq] at h'; exact absurd h' h7
      · exact h'
    unfold strip_footer
    rw [if_neg h7]
    cases hs : footer_slot p with
    | none => rw [hs] at hslot
    | some c =>
      rw [hs] at hslot
      cases c with
      | str s => simp at hslot
      | chunks v =>
        cases v with
        | nil => rfl
        | cons hd tl => simp at hslot

theorem mapME_strip_footer (l : List (List Chunk)) (hsafe : l.all safe_page = true) :
    mapME strip_footer l =
      if l.all good_page = true
      then .ok (l.map (fun p => p.take (p.length - 7)))
      else .error (.invalidData "Footer banner not found at expected position") := by
  induction l with
  | nil => simp [mapME]
  | cons p ps ih =>
    rw [List.all_cons, Bool.and_eq_true] at hsafe
    obtain ⟨hp, hps⟩ := hsafe
    by_cases hg : good_page p = true
    · rw [mapME, strip_footer_good p hg, ih hps]
      by_cases hgs : ps.all good_page = true
      · have hall2 : (p :: ps).all good_page = true := by
          simp [List.all_cons, hg, hgs]
        rw [if_pos hgs, if_pos hall2]
        rfl
      · have hall2 : ¬((p :: ps).all good_page = true) := by
          rw [List.all_cons, Bool.and_eq_true]
          intro hcontra
          exact hgs hcontra.2
        rw [if_neg hgs, if_neg hall2]
    · rw [mapME, strip_footer_bad p hp (Bool.eq_false_iff.mpr hg),
        if_neg (by simp [List.all_cons, Bool.eq_false_iff.mpr hg])]

theorem mapME_strip_abort (l : List (List Chunk))
    (hall : l.all (fun p => good_page p || abortive_page p) = true)
    (hany : l.any abortive_page = true) :
    mapME strip_footer l = .error .panic := by
  induction l with
  | nil => simp at hany
  | cons p ps ih =>
    rw [List.all_cons, Bool.and_eq_true] at hall
    obtain ⟨hp, hps⟩ := hall
    by_cases ha : abortive_page p = true
    · rw [mapME, strip_footer_abort p ha]
    · have hg : good_page p = true := by
        rcases Bool.or_eq_true_iff.mp hp with h' | h'
        · exact h'
        · exact absurd h' ha
      have hany' : ps.any abortive_page = true := by
        rw [List.any_cons, Bool.or_eq_true_iff] at hany
        rcases hany with h' | h'
        · exact absurd h' ha
        · exact h'
      rw [mapME, strip_footer_good p hg, ih hps hany']

/-- C4 counterexample: with at least one page (here two, the first being
empty), the footer check on a non-last page fails, yet combine_page_chunks
does not return the format-mismatch error: it panics on the len-7 index
computation. -/
theorem c4_counterexample :
    combine_page_chunks [[], [Chunk.str (S "z")]] = .error .panic := by
  decide

/-- C4 (amended): restricted to inputs on which the footer check itself
can run without a panic (every non-last page has at least 7 elements and
the element 7 before its end is not an empty group), the page combiner
returns a fatal format-mismatch error when the check fails on any non-last
page, and otherwise truncates each non-last page at the footer element and
returns the concatenation of all pages in page order, the last page
unmodified. -/
theorem c4_page_combiner (pages : List (List Chunk)) (hne : pages ≠ [])
    (hsafe : pages.dropLast.all safe_page = true) :
    combine_page_chunks pages =
      if pages.dropLast.all good_page = true
      then .ok ((pages.dropLast.map (fun p => p.take (p.length - 7))).flatten
                ++ (pages.getLast?.getD []))
      else .error (.invalidData "Footer banner not found at expected position") := by
  cases pages with
  | nil => exact absurd rfl hne
  | cons p ps =>
    unfold combine_page_chunks
    rw [mapME_strip_footer _ hsafe]
    by_cases hg : (p :: ps).dropLast.all good_page = true
    · rw [if_pos hg, if_pos hg]
    · rw [if_neg hg, if_neg hg]

theorem c4_witness :
    combine_page_chunks
      [[Chunk.chunks [Chunk.str FOOTER_BANNER], Chunk.str (S "1"), Chunk.str (S "2"),
        Chunk.str (S "3"), Chunk.str (S "4"), Chunk.str (S "5"), Chunk.str (S "6")],
       [Chunk.str (S "z")]] = .ok [Chunk.str (S "z")] := by
  have h := c4_page_combiner
    [[Chunk.chunks [Chunk.str FOOTER_BANNER], Chunk.str (S "1"), Chunk.str (S "2"),
      Chunk.str (S "3"), Chunk.str (S "4"), Chunk.str (S "5"), Chunk.str (S "6")],
     [Chunk.str (S "z")]] (by decide) (by decide)
  rw [if_pos (by decide)] at h
  exact h.trans (by decide)

/-- C9: combine_page_chunks is only total when the page list is non-empty
and each non-last page has at least 7 elements with a non-empty group
permissible at the footer slot: with zero pages it panics on the num_pages-1
underflow, and a non-last page with fewer than 7 elements or an empty
group at the footer slot makes it panic (index underflow or out of
bounds) rather than return the format-mismatch error, provided an earlier
non-last page did not already fail the footer check. -/
theorem c9_combiner_totality :
    combine_page_chunks [] = .error .panic ∧
    ∀ pages : List (List Chunk),
      pages.dropLast.all (fun p => good_page p || abortive_page p) = true →
      pages.dropLast.any abortive_page = true →
      combine_page_chunks pages = .error .panic := by
  constructor
  · rfl
  · intro pages hall hany
    cases pages with
    | nil => simp at hany
    | cons p ps =>
      unfold combine_page_chunks
      rw [mapME_strip_abort _ hall hany]

theorem c9_witness :
    combine_page_chunks
      [[Chunk.chunks [], Chunk.str (S "1"), Chunk.str (S "2"),
        Chunk.str (S "3"), Chunk.str (S "4"), Chunk.str (S "5"), Chunk.str (S "6")],
       [Chunk.str (S "z")]] = .error .panic :=
  c9_combiner_totality.2
    [[Chunk.chunks [], Chunk.str (S "1"), Chunk.str (S "2"),
      Chunk.str (S "3"), Chunk.str (S "4"), Chunk.str (S "5"), Chunk.str (S "6")],
     [Chunk.str (S "z")]] (by decide) (by decide)

theorem get?_append_plus (acc : List α) (l : List α) (k : Nat) :
    (acc ++ l).get? (acc.length + k) = l.get? k := by
  induction acc with
  | nil => simp
  | cons a as ih =>
    have h1 : (a :: as).length + k = (as.length + k) + 1 := by
      simp only [List.length_cons]; omega
    rw [h1, List.cons_append]
    simpa using ih

theorem drop_append_plus (acc : List α) (l : List α) (k : Nat) :
    (acc ++ l).drop (acc.length + k) = l.drop k := by
  induction acc with
  | nil => simp
  | cons a as ih =>
    have h1 : (a :: as).length + k = (as.length + k) + 1 := by
      simp only [List.length_cons]; omega
    rw [h1, List.cons_append]
    simpa using ih

theorem merge_loop_spec : ∀ (rest acc : List (List Str)), acc ++ rest ≠ [] →
    merge_loop (acc ++ rest) acc.length =
      (match merge_spec_sweep rest with
       | .error e => .error e
       | .ok out => .ok (acc ++ out))
  | [], acc, hne => by
    rw [List.append_nil] at hne ⊢
    rw [merge_spec_sweep]
    unfold merge_loop
    rw [if_neg (by simp [hne])]
    rw [dif_neg (by omega)]
    simp
  | [r], acc, hne => by
    rw [merge_spec_sweep]
    unfold merge_loop
    rw [if_neg (by simp)]
    rw [dif_neg (by simp only [List.length_append, List.length_cons, List.length_nil]; omega)]
  | r :: r2 :: rest, acc, hne => by
    have hget0 : (acc ++ r :: r2 :: rest).get? acc.length = some r := by
      have := get?_append_plus acc (r :: r2 :: rest) 0
      simpa using this
    have hget1 : (acc ++ r :: r2 :: rest).get? (acc.length + 1) = some r2 := by
      have := get?_append_plus acc (r :: r2 :: rest) 1
      simpa using this
    have htake : (acc ++ r :: r2 :: rest).take acc.length = acc :=
      List.take_left acc _
    have hdrop : (acc ++ r :: r2 :: rest).drop (acc.length + 2) = rest := by
      have := drop_append_plus acc (r :: r2 :: rest) 2
      simpa using this
    rw [merge_spec_sweep]
    unfold merge_loop
    rw [if_neg (by simp)]
    rw [dif_pos (by simp only [List.length_append, List.length_cons]; omega)]
    rw [hget0]
    dsimp only
    cases hlast : r.getLast? with
    | none => rfl
    | some lastEl =>
      dsimp only
      by_cases htag : starts_with PAGE_BREAK_TAG lastEl = true
      · rw [if_pos htag, if_pos htag, hget1]
        dsimp only
        rw [htake, hdrop]
        have hlist : acc ++ (r.dropLast ++ r2) :: rest
            = (acc ++ [r.dropLast ++ r2]) ++ rest := by
          simp
        have hlen : acc.length + 1 = (acc ++ [r.dropLast ++ r2]).length := by
          simp
        rw [hlist, hlen, merge_loop_spec rest (acc ++ [r.dropLast ++ r2]) (by simp)]
        cases merge_spec_sweep rest with
        | error e => rfl
        | ok out => simp
      · rw [if_neg htag, if_neg htag]
        have hlist : acc ++ r :: r2 :: rest = (acc ++ [r]) ++ (r2 :: rest) := by
          simp
        have hlen : acc.length + 1 = (acc ++ [r]).length := by simp
        rw [hlist, hlen, merge_loop_spec (r2 :: rest) (acc ++ [r]) (by simp)]
        cases merge_spec_sweep (r2 :: rest) with
        | error e => rfl
        | ok out => simp

theorem merge_spec_count : ∀ (s out : List (List Str)),
    merge_spec_sweep s = .ok out → out.length + merge_count s = s.length
  | [], out, h => by
    rw [merge_spec_sweep] at h
    cases h
    rfl
  | [r], out, h => by
    rw [merge_spec_sweep] at h
    cases h
    rfl
  | r :: r2 :: rest, out, h => by
    rw [merge_spec_sweep] at h
    rw [merge_count]
    cases hlast : r.getLast? with
    | none => rw [hlast] at h; cases h
    | some lastEl =>
      rw [hlast] at h
      dsimp only at h ⊢
      by_cases htag : starts_with PAGE_BREAK_TAG lastEl = true
      · rw [if_pos htag] at h
        rw [if_pos htag]
        cases hrec : merge_spec_sweep rest with
        | error e => rw [hrec] at h; cases h
        | ok out2 =>
          rw [hrec] at h
          cases h
          have := merge_spec_count rest out2 hrec
          simp only [List.length_cons]
          omega
      · rw [if_neg htag] at h
        rw [if_neg htag]
        cases hrec : merge_spec_sweep (r2 :: rest) with
        | error e => rw [hrec] at h; cases h
        | ok out2 =>
          rw [hrec] at h
          cases h
          have := merge_spec_count (r2 :: rest) out2 hrec
          simp only [List.length_cons] at this ⊢
          omega

/-- C7: the page-break merge loop of process_transfers, started at index
0, behaves exactly as the single forward sweep described by the spec
(merge_spec_sweep), and each merge removes exactly one row: whenever the
sweep succeeds, the output row count plus the number of merges equals the
input row count. -/
theorem c7_merge_sweep (s : List (List Str)) (hne : s ≠ []) :
    merge_loop s 0 =
      (match merge_spec_sweep s with
       | .error e => .error e
       | .ok out => .ok out) ∧
    ∀ out, merge_spec_sweep s = .ok out → out.length + merge_count s = s.length := by
  constructor
  · have h := merge_loop_spec s [] (by simpa using hne)
    simpa using h
  · intro out hout
    exact merge_spec_count s out hout

theorem c7_witness :
    merge_loop [[S "a", S "SFUSR9"], [S "b"]] 0 =
      (match merge_spec_sweep [[S "a", S "SFUSR9"], [S "b"]] with
       | .error e => .error e
       | .ok out => .ok out) ∧
    ([[S "a", S "b"]] : List (List Str)).length
        + merge_count [[S "a", S "SFUSR9"], [S "b"]]
      = ([[S "a", S "SFUSR9"], [S "b"]] : List (List Str)).length :=
  ⟨(c7_merge_sweep [[S "a", S "SFUSR9"], [S "b"]] (by decide)).1,
   (c7_merge_sweep [[S "a", S "SFUSR9"], [S "b"]] (by decide)).2
     [[S "a", S "b"]] (by decide)⟩

theorem build_transfers_bad : ∀ rows : List (List Str),
    rows.dropLast.any bad_grade_row = true → build_transfers rows = .error .panic
  | [], h => by simp at h
  | [r], h => by simp at h
  | r :: next :: rest, h => by
    rw [show (r :: next :: rest).dropLast = r :: (next :: rest).dropLast from rfl,
      List.any_cons] at h
    have hschool : ∃ sc, (if next.length = 10 ∨ next.length = 2 then
        match next.get? 1 with
        | some s => Except.ok (some s)
        | none => Except.error PErr.panic
      else Except.ok none : Except PErr (Option Str)) = .ok sc := by
      by_cases hsch : next.length = 10 ∨ next.length = 2
      · have h1 : 1 < next.length := by rcases hsch with h' | h' <;> omega
        rw [if_pos hsch, List.get?_eq_get h1]
        exact ⟨some (next.get ⟨1, h1⟩), rfl⟩
      · rw [if_neg hsch]
        exact ⟨none, rfl⟩
    obtain ⟨sc, hsc⟩ := hschool
    rw [build_transfers, hsc]
    dsimp only
    rcases Bool.or_eq_true_iff.mp h with hbad | hrest
    · unfold bad_grade_row at hbad
      dsimp only at hbad
      cases hg : r.get? ((if r.length = 10 then 1 else 0) + 6) with
      | none => rw [hg] at hbad
      | some g =>
        rw [hg] at hbad
        dsimp only at hbad
        have hcf : POSSIBLE_GRADES.contains g = false := by simpa using hbad
        have hncont : ¬(POSSIBLE_GRADES.contains g = true) := by
          rw [hcf]
          decide
        dsimp only
        rw [if_neg hncont]
    · cases hg : r.get? ((if r.length = 10 then 1 else 0) + 6) with
      | none => rfl
      | some g =>
        dsimp only
        by_cases hcont : POSSIBLE_GRADES.contains g = true
        · rw [if_pos hcont]
          cases h1 : r.get? ((if r.length = 10 then 1 else 0) + 1) with
          | none => rfl
          | some subject =>
            cases h2 : r.get? ((if r.length = 10 then 1 else 0) + 2) with
            | none => rfl
            | some cid =>
              dsimp only
              rw [build_transfers_bad (next :: rest) hrest]
        · rw [if_neg hcont]

theorem row_to_course_err : ∀ (row : List Str) (e : PErr),
    row_to_course row = .error e → e = .panic := by
  intro row e h
  unfold row_to_course at h
  cases hg : row.get? 6 with
  | none => rw [hg] at h; cases h; rfl
  | some g =>
    rw [hg] at h
    dsimp only at h
    by_cases hcont : POSSIBLE_GRADES.contains g = true
    · rw [if_pos hcont] at h
      cases h1 : row.get? 1 with
      | none => rw [h1] at h; dsimp only at h; cases h; rfl
      | some subject =>
        cases h2 : row.get? 2 with
        | none => rw [h1, h2] at h; dsimp only at h; cases h; rfl
        | some cid => rw [h1, h2] at h; dsimp only at h; cases h
    · rw [if_neg hcont] at h
      cases h; rfl

theorem mapME_rtc_err : ∀ (rows : List (List Str)) (e : PErr),
    mapME row_to_course rows = .error e → e = .panic := by
  intro rows
  induction rows with
  | nil => intro e h; rw [mapME] at h; cases h
  | cons row rest ih =>
    intro e h
    rw [mapME] at h
    cases hrc : row_to_course row with
    | error e2 =>
      rw [hrc] at h
      dsimp only at h
      cases h
      exact row_to_course_err row e hrc
    | ok c =>
      rw [hrc] at h
      dsimp only at h
      cases hrest : mapME row_to_course rest with
      | error e2 => rw [hrest] at h; dsimp only at h; cases h; exact ih e hrest
      | ok cs => rw [hrest] at h; dsimp only at h; cases h

theorem mapME_rtc_bad : ∀ rows : List (List Str),
    rows.any bad_sem_row = true → mapME row_to_course rows = .error .panic := by
  intro rows
  induction rows with
  | nil => intro h; simp at h
  | cons row rest ih =>
    intro h
    rw [List.any_cons] at h
    rw [mapME]
    cases hg : row.get? 6 with
    | none =>
      have hrc : row_to_course row = .error .panic := by
        unfold row_to_course
        rw [hg]
      rw [hrc]
    | some g =>
      by_cases hcont : POSSIBLE_GRADES.contains g = true
      · have hbadrow : bad_sem_row row = false := by
          unfold bad_sem_row
          rw [hg]
          dsimp only
          rw [hcont]
          decide
        have hrest : rest.any bad_sem_row = true := by
          rcases Bool.or_eq_true_iff.mp h with h' | h'
          · rw [hbadrow] at h'; cases h'
          · exact h'
        cases hrc : row_to_course row with
        | error e2 =>
          dsimp only
          rw [row_to_course_err row e2 hrc]
        | ok c =>
          dsimp only
          rw [ih hrest]
      · have hrc : row_to_course row = .error .panic := by
          unfold row_to_course
          rw [hg]
          dsimp only
          rw [if_neg hcont]
        rw [hrc]

theorem build_semesters_bad : ∀ g : List ((Str × Str) × List (List Str)),
    g.any (fun p => !p.2.isEmpty && p.2.any bad_sem_row) = true →
    build_semesters g = .error .panic := by
  intro g
  induction g with
  | nil => intro h; simp at h
  | cons p ps ih =>
    intro h
    rw [List.any_cons] at h
    unfold build_semesters at ih ⊢
    rw [List.filter_cons]
    by_cases hne : (!p.2.isEmpty) = true
    · rw [if_pos hne]
      rw [mapME]
      rcases Bool.or_eq_true_iff.mp h with hbad | hrest
      · have hbadrows : p.2.any bad_sem_row = true := by
          have hb := hbad
          simp only [Bool.and_eq_true] at hb
          exact hb.2
        have hsb : sem_build p = .error .panic := by
          unfold sem_build
          rw [mapME_rtc_bad p.2 hbadrows]
        rw [hsb]
      · cases hsb : sem_build p with
        | error e2 =>
          dsimp only
          have he2 : e2 = .panic := by
            unfold sem_build at hsb
            cases hrc : mapME row_to_course p.2 with
            | error e3 =>
              rw [hrc] at hsb
              dsimp only at hsb
              cases hsb
              exact mapME_rtc_err p.2 e2 hrc
            | ok cs => rw [hrc] at hsb; dsimp only at hsb; cases hsb
          rw [he2]
        | ok sem =>
          dsimp only
          rw [ih hrest]
    · rw [if_neg hne]
      have hrest : ps.any (fun p => !p.2.isEmpty && p.2.any bad_sem_row) = true := by
        rcases Bool.or_eq_true_iff.mp h with h' | h'
        · exfalso
          simp only [Bool.and_eq_true] at h'
          exact hne h'.1
        · exact h'
      exact ih hrest


/-- C6: in both extractors, a row that reaches grade validation whose
grade-position element (offset+6 for transfers, index 6 for semesters) is
present but outside the fixed grade vocabulary makes the whole extraction
fail with a panic (the failed assert): the row is never silently dropped
and no partial list containing it is returned. For transfers the rows that
reach validation are all but the last one; for semesters they are the rows
of every group kept after the empty-group filter. -/
theorem c6_grade_validation_fatal :
    (∀ rows : List (List Str), rows.dropLast.any bad_grade_row = true →
        build_transfers rows = .error .panic) ∧
    (∀ g : List ((Str × Str) × List (List Str)),
        g.any (fun p => !p.2.isEmpty && p.2.any bad_sem_row) = true →
        build_semesters g = .error .panic) :=
  ⟨build_transfers_bad, build_semesters_bad⟩

theorem c6_witness :
    build_transfers [[S "", S "X", S "1", S "a", S "b", S "c", S "ZZ"], [S "x"]]
        = .error .panic ∧
    build_semesters [((S "2021", S "Fall"), [[S "", S "X", S "1", S "a", S "b", S "c", S "ZZ"]])]
        = .error .panic :=
  ⟨c6_grade_validation_fatal.1 [[S "", S "X", S "1", S "a", S "b", S "c", S "ZZ"], [S "x"]]
     (by decide),
   c6_grade_validation_fatal.2
     [((S "2021", S "Fall"), [[S "", S "X", S "1", S "a", S "b", S "c", S "ZZ"]])]
     (by decide)⟩

theorem mapME_length : ∀ (f : α → Except PErr β) (l : List α) (out : List β),
    mapME f l = .ok out → out.length = l.length := by
  intro f l
  induction l with
  | nil =>
    intro out h
    rw [mapME] at h
    cases h
    rfl
  | cons a as ih =>
    intro out h
    rw [mapME] at h
    cases hfa : f a with
    | error e => rw [hfa] at h; cases h
    | ok b =>
      rw [hfa] at h
      dsimp only at h
      cases hrest : mapME f as with
      | error e => rw [hrest] at h; dsimp only at h; cases h
      | ok bs =>
        rw [hrest] at h
        dsimp only at h
        cases h
        simp [ih bs hrest]

theorem build_sem_list_ok : ∀ (l : List ((Str × Str) × List (List Str))) (out : List Semester),
    (∀ p ∈ l, p.2 ≠ []) → mapME sem_build l = .ok out →
    (∀ s ∈ out, s.courses ≠ []) ∧ out.length = l.length := by
  intro l
  induction l with
  | nil =>
    intro out _ h
    rw [mapME] at h
    cases h
    constructor
    · intro s hs
      cases hs
    · rfl
  | cons p ps ih =>
    intro out hne h
    rw [mapME] at h
    cases hsb : sem_build p with
    | error e => rw [hsb] at h; cases h
    | ok sem =>
      rw [hsb] at h
      dsimp only at h
      cases hrest : mapME sem_build ps with
      | error e => rw [hrest] at h; dsimp only at h; cases h
      | ok sems =>
        rw [hrest] at h
        dsimp only at h
        cases h
        have hcourses : sem.courses ≠ [] := by
          unfold sem_build at hsb
          cases hrc : mapME row_to_course p.2 with
          | error e => rw [hrc] at hsb; cases hsb
          | ok courses =>
            rw [hrc] at hsb
            dsimp only at hsb
            cases hsb
            have hlen := mapME_length row_to_course p.2 courses hrc
            have hp2 : p.2 ≠ [] := hne p (List.mem_cons_self p ps)
            intro hc
            apply hp2
            dsimp only at hc
            rw [hc] at hlen
            exact List.length_eq_zero.mp hlen.symm
        have hihres := ih sems (fun q hq => hne q (List.mem_cons_of_mem p hq)) hrest
        constructor
        · intro s hs
          rcases List.mem_cons.mp hs with h' | h'
          · rw [h']; exact hcourses
          · exact hihres.1 s h'
        · simp [hihres.2]

/-- C8: whenever process_semesters succeeds, every emitted Semester has at
least one course, and exactly the groups with a non-empty list of
surviving candidate rows produce a Semester: a run whose candidate rows
were all filtered out produces none. -/
theorem c8_no_empty_semester (chunks : List Chunk)
    (g : List ((Str × Str) × List (List Str))) (out : List Semester)
    (hg : semester_grouped chunks = .ok g)
    (hout : process_semesters chunks = .ok out) :
    (∀ s ∈ out, s.courses ≠ []) ∧
    out.length = (g.filter (fun p => !p.2.isEmpty)).length := by
  unfold process_semesters at hout
  rw [hg] at hout
  dsimp only at hout
  unfold build_semesters at hout
  refine build_sem_list_ok (g.filter (fun p => !p.2.isEmpty)) out ?_ hout
  intro p hp
  have := List.of_mem_filter hp
  simpa using this

theorem c8_witness :
    (Semester.mk (S "2021") (S "Fall") true [Course.mk (S "CMPT") (S "120") (S "A")]).courses
        ≠ [] ∧
    ([Semester.mk (S "2021") (S "Fall") true [Course.mk (S "CMPT") (S "120") (S "A")]]
        : List Semester).length
      = (([((S "2021", S "Fall"),
            [[S "", S "CMPT", S "120", S "a", S "b", S "c", S "A"]])]
          : List ((Str × Str) × List (List Str))).filter (fun p => !p.2.isEmpty)).length := by
  have h := c8_no_empty_semester
    [Chunk.str (S "hdr"), Chunk.str (S "2021 Fall"),
     Chunk.chunks [Chunk.str (S ""), Chunk.str (S "CMPT"), Chunk.str (S "120"),
       Chunk.str (S "a"), Chunk.str (S "b"), Chunk.str (S "c"), Chunk.str (S "A")]]
    [((S "2021", S "Fall"), [[S "", S "CMPT", S "120", S "a", S "b", S "c", S "A"]])]
    [Semester.mk (S "2021") (S "Fall") true [Course.mk (S "CMPT") (S "120") (S "A")]]
    (by decide) (by decide)
  exact ⟨h.1 _ (List.mem_cons_self _ _), h.2⟩

theorem row_keep_err : ∀ (v : List Str) (e : PErr), row_keep v = .error e → e = .panic := by
  intro v e h
  cases v with
  | nil => cases h; rfl
  | cons s0 tl => cases h

theorem filterME_err : ∀ (rows : List (List Str)) (e : PErr),
    filterME row_keep rows = .error e → e = .panic := by
  intro rows
  induction rows with
  | nil => intro e h; cases h
  | cons v rest ih =>
    intro e h
    rw [filterME] at h
    cases hrk : row_keep v with
    | error e2 =>
      rw [hrk] at h
      cases h
      exact row_keep_err v e hrk
    | ok keep =>
      rw [hrk] at h
      dsimp only at h
      cases hfm : filterME row_keep rest with
      | error e2 =>
        rw [hfm] at h
        cases h
        exact ih e hfm
      | ok tail => rw [hfm] at h; dsimp only at h; cases h

theorem filterME_empty_bad : ∀ rows : List (List Str),
    rows.any (fun v => v.isEmpty) = true → filterME row_keep rows = .error .panic := by
  intro rows
  induction rows with
  | nil => intro h; simp at h
  | cons v rest ih =>
    intro h
    rw [List.any_cons] at h
    rw [filterME]
    cases hrk : row_keep v with
    | error e =>
      dsimp only
      rw [row_keep_err v e hrk]
    | ok keep =>
      dsimp only
      have hrest : rest.any (fun v => v.isEmpty) = true := by
        rcases Bool.or_eq_true_iff.mp h with h' | h'
        · exfalso
          have hv : v = [] := by simpa using h'
          rw [hv] at hrk
          cases hrk
        · exact h'
      rw [ih hrest]

theorem run_to_group_err : ∀ (s : List Chunk) (e : PErr),
    run_to_group s = .error e → e = .panic := by
  intro s e h
  unfold run_to_group at h
  cases s with
  | nil => cases h; rfl
  | cons c rest =>
    dsimp only at h
    cases hgs : c.get_string with
    | none => rw [hgs] at h; cases h; rfl
    | some s0 =>
      rw [hgs] at h
      dsimp only at h
      cases hyt : get_year_term s0 with
      | none => rw [hyt] at h; cases h; rfl
      | some yt =>
        rw [hyt] at h
        dsimp only at h
        cases hfm : filterME row_keep ((rest.filterMap Chunk.get_contained).map reduce_sem_row) with
        | error e2 =>
          rw [hfm] at h
          cases h
          exact filterME_err _ e hfm
        | ok rows => rw [hfm] at h; dsimp only at h; cases h

theorem run_to_group_bad : ∀ s : List Chunk,
    (((s.drop 1).filterMap Chunk.get_contained).map reduce_sem_row).any
      (fun v => v.isEmpty) = true →
    run_to_group s = .error .panic := by
  intro s h
  cases s with
  | nil => rfl
  | cons c rest =>
    unfold run_to_group
    dsimp only
    cases hgs : c.get_string with
    | none => rfl
    | some s0 =>
      dsimp only
      cases hyt : get_year_term s0 with
      | none => rfl
      | some yt =>
        dsimp only
        have h2 : ((rest.filterMap Chunk.get_contained).map reduce_sem_row).any
            (fun v => v.isEmpty) = true := by simpa using h
        rw [filterME_empty_bad _ h2]

theorem mapME_run_bad : ∀ l : List (List Chunk),
    (∃ s, s ∈ l ∧ run_to_group s = .error .panic) →
    mapME run_to_group l = .error .panic := by
  intro l
  induction l with
  | nil =>
    rintro ⟨s, hs, _⟩
    cases hs
  | cons a as ih =>
    rintro ⟨s, hs, hrun⟩
    rw [mapME]
    cases hra : run_to_group a with
    | error e =>
      dsimp only
      rw [run_to_group_err a e hra]
    | ok g =>
      dsimp only
      have hs' : s ∈ as := by
        rcases List.mem_cons.mp hs with h' | h'
        · subst h'
          rw [hra] at hrun
          cases hrun
        · exact h'
      rw [ih ⟨s, hs', hrun⟩]

/-- C10: in the semester row filter, the first element of a reduced row is
read before the length check, so a run holding a candidate course row
whose leaves are all filtered out (an empty reduced row) makes
process_semesters panic by the v[0] out-of-bounds index instead of
dropping the row as too short. -/
theorem c10_empty_row_panics (chunks : List Chunk)
    (h : (((split_runs chunks).drop 1).filter (fun s => decide (2 ≤ s.length))).any
      (fun s => (((s.drop 1).filterMap Chunk.get_contained).map reduce_sem_row).any
        (fun v => v.isEmpty)) = true) :
    process_semesters chunks = .error .panic := by
  have hex : ∃ s, s ∈ ((split_runs chunks).drop 1).filter (fun s => decide (2 ≤ s.length)) ∧
      (((s.drop 1).filterMap Chunk.get_contained).map reduce_sem_row).any
        (fun v => v.isEmpty) = true := by
    obtain ⟨s, hs, hp⟩ := List.any_eq_true.mp h
    exact ⟨s, hs, hp⟩
  obtain ⟨s, hs, hbad⟩ := hex
  have hrun : run_to_group s = .error .panic := run_to_group_bad s hbad
  have hmap := mapME_run_bad _ ⟨s, hs, hrun⟩
  unfold process_semesters semester_grouped
  rw [hmap]

theorem c10_witness :
    process_semesters
      [Chunk.str (S "h"), Chunk.str (S "2021 Fall"), Chunk.chunks [Chunk.str (S "W")]]
      = .error .panic :=
  c10_empty_row_panics
    [Chunk.str (S "h"), Chunk.str (S "2021 Fall"), Chunk.chunks [Chunk.str (S "W")]]
    (by decide)

/-- C5: when the transfer marker is absent (the locator's own lookup
returning a non-fatal error value that is held unexamined), the assembler
nevertheless fails: process_chunks never returns a StudentInfo, and on a
document that is otherwise well-formed enough to avoid panics (plan,
program and end markers found, at least 3 chunks, and a plan chunk that is
not a group of fewer than 2 children) it returns a fatal InvalidData
error. -/
theorem c5_transfer_absence_fatal :
    (∀ (chunks : List Chunk) (pi : Nat) (out : StudentInfo),
      find_index chunks 0 PLAN_MARKER "Plan marker not found" = .ok pi →
      find_index chunks (pi + 1) TRANSFER_MARKER "Transfer marker not found"
        = .error (.invalidData "Transfer marker not found") →
      process_chunks chunks ≠ .ok out) ∧
    (∀ (chunks : List Chunk) (pi gi ei : Nat),
      find_index chunks 0 PLAN_MARKER "Plan marker not found" = .ok pi →
      find_index chunks (pi + 1) TRANSFER_MARKER "Transfer marker not found"
        = .error (.invalidData "Transfer marker not found") →
      find_index chunks (pi + 1) PROGRAM_MARKER "Program marker not found" = .ok gi →
      find_index chunks gi END_MARKER "End marker not found" = .ok ei →
      3 ≤ chunks.length →
      (match chunks.get? (pi + 1) with
       | some (Chunk.chunks v) => decide (2 ≤ v.length)
       | _ => true) = true →
      ∃ m, process_chunks chunks = .error (.invalidData m)) := by
  constructor
  · intro chunks pi out h1 h2 hok
    unfold process_chunks at hok
    rw [h1] at hok
    dsimp only at hok
    rw [h2] at hok
    cases h3 : find_index chunks (pi + 1) PROGRAM_MARKER "Program marker not found" with
    | error e => rw [h3] at hok; cases hok
    | ok gi =>
      rw [h3] at hok
      dsimp only at hok
      cases h4 : find_index chunks gi END_MARKER "End marker not found" with
      | error e => rw [h4] at hok; cases hok
      | ok ei =>
        rw [h4] at hok
        dsimp only at hok
        by_cases h5 : chunks.length < 3
        · rw [if_pos h5] at hok; cases hok
        · rw [if_neg h5] at hok
          cases h6 : chunks.get? (chunks.length - 3) with
          | none => rw [h6] at hok; cases hok
          | some idc =>
            rw [h6] at hok
            dsimp only at hok
            cases h7 : idc.get_string with
            | none => rw [h7] at hok; cases hok
            | some sid =>
              rw [h7] at hok
              dsimp only at hok
              cases h8 : chunks.get? (pi + 1) with
              | none => rw [h8] at hok; cases hok
              | some planc =>
                rw [h8] at hok
                dsimp only at hok
                cases h9 : process_plan planc with
                | error e => rw [h9] at hok; cases hok
                | ok plan =>
                  rw [h9] at hok
                  dsimp only at hok
                  cases hok
  · intro chunks pi gi ei h1 h2 h3 h4 h5 h6
    have hlt : pi + 1 < chunks.length := by
      by_contra hge
      have hdrop : chunks.drop (pi + 1) = [] := List.drop_eq_nil_of_le (by omega)
      unfold find_index at h3
      rw [hdrop] at h3
      cases h3
    obtain ⟨planc, hplanc⟩ : ∃ c, chunks.get? (pi + 1) = some c := by
      rw [List.get?_eq_get hlt]
      exact ⟨_, rfl⟩
    have hid : chunks.length - 3 < chunks.length := by omega
    obtain ⟨idc, hidc⟩ : ∃ c, chunks.get? (chunks.length - 3) = some c := by
      rw [List.get?_eq_get hid]
      exact ⟨_, rfl⟩
    unfold process_chunks
    rw [h1]
    dsimp only
    rw [h2, h3]
    dsimp only
    rw [h4]
    dsimp only
    rw [if_neg (Nat.not_lt.mpr h5), hidc]
    dsimp only
    cases hgs : idc.get_string with
    | none => exact ⟨"Bad student id", rfl⟩
    | some sid =>
      dsimp only
      rw [hplanc]
      dsimp only
      cases planc with
      | str s => exact ⟨"Bad plan chunk found", rfl⟩
      | chunks v =>
        rw [hplanc] at h6
        dsimp only at h6
        have h2v : 2 ≤ v.length := of_decide_eq_true h6
        unfold process_plan
        dsimp only
        rw [if_neg (Nat.not_lt.mpr h2v)]
        cases hbind : (v.get? (v.length - 2)).bind Chunk.get_string with
        | none => exact ⟨"Bad plan chunk found", rfl⟩
        | some s =>
          dsimp only
          exact ⟨"Transfer marker not found", rfl⟩

theorem c5_witness :
    (∃ m, process_chunks
      [Chunk.str (S "Plan"), Chunk.chunks [Chunk.str (S "N"), Chunk.str (S "X")],
       Chunk.str (S "Program:"),
       Chunk.str (S "TOTAL UNITS PASSED BY ACADEMIC GROUP"), Chunk.str (S "id9")]
      = .error (.invalidData m)) ∧
    process_chunks
      [Chunk.str (S "Plan"), Chunk.chunks [Chunk.str (S "N"), Chunk.str (S "X")],
       Chunk.str (S "Program:"),
       Chunk.str (S "TOTAL UNITS PASSED BY ACADEMIC GROUP"), Chunk.str (S "id9")]
      ≠ .ok (StudentInfo.mk (S "x") (Plan.mk (S "y")) [] []) :=
  ⟨c5_transfer_absence_fatal.2
     [Chunk.str (S "Plan"), Chunk.chunks [Chunk.str (S "N"), Chunk.str (S "X")],
      Chunk.str (S "Program:"),
      Chunk.str (S "TOTAL UNITS PASSED BY ACADEMIC GROUP"), Chunk.str (S "id9")]
     0 2 3 (by decide) (by decide) (by decide) (by decide) (by decide) (by decide),
   c5_transfer_absence_fatal.1
     [Chunk.str (S "Plan"), Chunk.chunks [Chunk.str (S "N"), Chunk.str (S "X")],
      Chunk.str (S "Program:"),
      Chunk.str (S "TOTAL UNITS PASSED BY ACADEMIC GROUP"), Chunk.str (S "id9")]
     0 (StudentInfo.mk (S "x") (Plan.mk (S "y")) [] []) (by decide) (by decide)⟩
